import Mathlib

set_option maxHeartbeats 1000000

/-!
Verification development for the `chonkie-for-ansible` log chunking pipeline.

The repository consists of thin configuration wrappers (`chonkie_chunking.py`,
`chunking_lang.py`, `main.py`) around a hierarchical recursive segmentation
engine.  The engine itself (recursive splitter, packer/merger, overlap
injection) is not part of the repository's own sources — only its level
tables, configurations and metadata consumers are — so the engine is
modelled here from the specification (sections 3–5 and 7 of the design
document), while the level tables and the metadata extractor are embedded
directly from the repository's source files.

Texts are modelled as `List Char`; the size measure is the character count
(`List.length`), which is the measure configured by every splitter in the
repository (`tokenizer_or_token_counter="character"` and langchain's default
`len`).
-/

namespace AnsibleChunking

/-- Modelled from the spec: a segment of text produced by the Delimiter
Matcher — either a plain (non-delimiter) run or a matched delimiter run.
The Delimiter Matcher itself is part of the external chunking engine, which
is missing from the repository sources. -/
inductive Seg where
  | plain : List Char → Seg
  | delim : List Char → Seg
deriving DecidableEq, Repr

/-- The text content carried by a segment. -/
def Seg.content : Seg → List Char
  | .plain s => s
  | .delim s => s

/-- Prepend one character to the leading plain run of a segment list,
creating a new plain run if the list does not start with one. -/
def consPlain (c : Char) : List Seg → List Seg
  | .plain s :: rest => .plain (c :: s) :: rest
  | segs => .plain [c] :: segs

/-- Modelled from the spec: the Delimiter Matcher for a list of literal
delimiter patterns (spec section 4.1, missing from the repository sources).
Scans left to right; at each position the earliest pattern in the level's
`delimiters` sequence that matches wins (the spec's tie-break), matches are
non-overlapping, and empty patterns are ignored by the scan (a character
boundary split never reaches the matcher: it is the forced-leaf fallback). -/
def lexGoF (delims : List (List Char)) : Nat → List Char → List Seg
  | _, [] => []
  | 0, _ :: _ => []
  | fuel + 1, c :: rest =>
    match delims.find? (fun d => !d.isEmpty && d.isPrefixOf (c :: rest)) with
    | some d => .delim d :: lexGoF delims fuel ((c :: rest).drop d.length)
    | none => consPlain c (lexGoF delims fuel rest)

/-- The literal-delimiter lexer at its natural fuel (one unit of fuel per
consumed character suffices, since matched delimiters are non-empty). -/
def lexGo (delims : List (List Char)) (s : List Char) : List Seg :=
  lexGoF delims s.length s

/-- Modelled from the spec: the Delimiter Matcher for a whitespace-fallback
level (spec section 4.1, missing from the repository sources): matches are
all maximal runs of whitespace. -/
def lexWsF : Nat → List Char → List Seg
  | _, [] => []
  | 0, _ :: _ => []
  | fuel + 1, c :: rest =>
    if c.isWhitespace then
      .delim (c :: rest.takeWhile Char.isWhitespace) ::
        lexWsF fuel (rest.dropWhile Char.isWhitespace)
    else
      .plain (c :: rest.takeWhile (fun x => !x.isWhitespace)) ::
        lexWsF fuel (rest.dropWhile (fun x => !x.isWhitespace))

/-- The whitespace-run lexer at its natural fuel. -/
def lexWs (s : List Char) : List Seg :=
  lexWsF s.length s

/-- Modelled from the spec: the delimiter inclusion policy of a rule level
(spec section 3).  `omitDelim` is the spec's `none` policy; following the
spec's own implementation note (section 4.2) the delimiter is kept attached
to the previous piece internally to preserve the full-coverage invariant
(no level table in this repository uses the `none` policy, so the final
stripping step is never exercised and is not modelled). -/
inductive Inclusion where
  | omitDelim : Inclusion
  | attachPrev : Inclusion
  | attachNext : Inclusion
deriving DecidableEq, Repr

/-- Cut a segment list into pieces, attaching each delimiter to the piece
after it (`attach-next`); `acc` is the text accumulated for the piece
currently being built. -/
def assembleNext : List Seg → List Char → List (List Char)
  | [], acc => if acc.isEmpty then [] else [acc]
  | .plain s :: rest, acc => assembleNext rest (acc ++ s)
  | .delim d :: rest, acc =>
    if acc.isEmpty then assembleNext rest d
    else acc :: assembleNext rest d

/-- Cut a segment list into pieces, attaching each delimiter to the piece
before it (`attach-previous`); `acc` is the text accumulated for the piece
currently being built. -/
def assemblePrev : List Seg → List Char → List (List Char)
  | [], acc => if acc.isEmpty then [] else [acc]
  | .plain s :: rest, acc => assemblePrev rest (acc ++ s)
  | .delim d :: rest, acc => (acc ++ d) :: assemblePrev rest []

/-- Cut a matched segment list into pieces according to an inclusion
policy (spec section 4.2 step 3). -/
def assemble : Inclusion → List Seg → List (List Char)
  | .attachNext, segs => assembleNext segs []
  | _, segs => assemblePrev segs []

/-- Modelled from the spec: a Rule Level of the Level Table (spec section 3);
the engine consuming it is missing from the repository sources. -/
structure RuleLevel where
  delimiters : List (List Char)
  is_whitespace_fallback : Bool
  inclusion : Inclusion
deriving DecidableEq, Repr

/-- Modelled from the spec: applying one rule level to a span
(spec sections 4.1 and 4.2 step 3).  A whitespace-fallback level with no
whitespace present bisects the span at its midpoint (the spec's implicit
midpoint match, section 4.1). -/
def splitByLevel (lvl : RuleLevel) (s : List Char) : List (List Char) :=
  if lvl.is_whitespace_fallback then
    if s.any Char.isWhitespace then assemble lvl.inclusion (lexWs s)
    else if 2 ≤ s.length then [s.take (s.length / 2), s.drop (s.length / 2)]
    else [s]
  else assemble lvl.inclusion (lexGo lvl.delimiters s)

/-- Modelled from the spec: the Recursive Splitter (spec section 4.2,
missing from the repository sources).  The list argument is the suffix of
the Level Table still available; an exhausted table returns the span as a
forced leaf (step 1), a level with no effective match falls through to the
next level (step 2), and oversized pieces recurse at the next level
(step 4).  The size measure is the character count. -/
def splitLevelsF (maxSize : Nat) : Nat → List RuleLevel → List Char → List (List Char)
  | _, [], s => [s]
  | 0, _ :: _, s => [s]
  | fuel + 1, lvl :: rest, s =>
    if (splitByLevel lvl s).length ≤ 1 then splitLevelsF maxSize fuel rest s
    else ((splitByLevel lvl s).map fun p =>
      if p.length ≤ maxSize then [p] else splitLevelsF maxSize fuel rest p).flatten

/-- The Recursive Splitter at its natural fuel (one unit per table level:
every recursive call moves to the next level). -/
def splitLevels (maxSize : Nat) (levels : List RuleLevel) (s : List Char) :
    List (List Char) :=
  splitLevelsF maxSize levels.length levels s

/-- Modelled from the spec: the merging half of the Packer/Merger (spec
section 4.3, missing from the repository sources).  Walks the pieces left
to right accumulating a buffer, flushing the buffer as one chunk core
whenever adding the next piece would exceed `maxSize`; a single piece that
alone exceeds `maxSize` is emitted as its own core tagged `true` (the
`OversizedAtomicFragment` soft condition, spec section 7).  The
structural-boundary early flush driven by `min_size` and level-0
provenance is not modelled: no claim constrains it and the pieces carry no
level provenance here. -/
def mergeGo (maxSize : Nat) : List (List Char) → List Char → List (List Char × Bool)
  | [], buf => if buf.isEmpty then [] else [(buf, false)]
  | p :: ps, buf =>
    if maxSize < buf.length + p.length then
      if buf.isEmpty then (p, true) :: mergeGo maxSize ps []
      else
        (buf, false) ::
          (if maxSize < p.length then (p, true) :: mergeGo maxSize ps []
           else mergeGo maxSize ps p)
    else mergeGo maxSize ps (buf ++ p)

/-- Modelled from the spec: a Chunk of the output Chunk Stream (spec
section 3).  `core` is the chunk's non-overlap region; `text` is the core
with the overlap prefix taken from the previous chunk's core prepended
(spec section 4.3).  The `level` and `size` provenance fields of the spec's
Chunk are not modelled: no claim constrains them (`size` is definitionally
`text.length` under the character measure). -/
structure Chunk where
  text : List Char
  core : List Char
  start_offset : Nat
  end_offset : Nat
  oversized : Bool
deriving DecidableEq, Repr

/-- The overlap text taken from the previous chunk's core, if any: its
trailing `V` characters. -/
def ovlOf (V : Nat) : Option (List Char) → List Char
  | none => []
  | some pc => pc.drop (pc.length - V)

/-- Modelled from the spec: the overlap-injection half of the Packer/Merger
(spec section 4.3, missing from the repository sources).  Each chunk after
the first is extended backward by the trailing `V` characters of the
previous chunk's core; `start` is the running start offset of the next
core, `prev` the previous core if any. -/
def materialize (V : Nat) : Nat → Option (List Char) → List (List Char × Bool) → List Chunk
  | _, _, [] => []
  | start, prev, cb :: rest =>
    { text := ovlOf V prev ++ cb.1
      core := cb.1
      start_offset := start - (ovlOf V prev).length
      end_offset := start + cb.1.length
      oversized := cb.2 } :: materialize V (start + cb.1.length) (some cb.1) rest

/-- Modelled from the spec: the engine Configuration after validation
(spec section 3); sizes are non-negative by construction. -/
structure Config where
  max_size : Nat
  min_size : Nat
  overlap_size : Nat
deriving DecidableEq, Repr

/-- The configuration invariant of spec section 3:
`0 <= min_size <= max_size` and `0 <= overlap_size < max_size`. -/
def Config.valid (c : Config) : Prop :=
  c.min_size ≤ c.max_size ∧ c.overlap_size < c.max_size

instance (c : Config) : Decidable c.valid := by
  unfold Config.valid
  infer_instance

/-- Modelled from the spec: the pipeline entry point
`segment(text, level_table, config)` (spec section 4.5, missing from the
repository sources): recursive split from level 0, then pack (merge and
overlap injection). -/
def segment (table : List RuleLevel) (cfg : Config) (text : List Char) : List Chunk :=
  materialize cfg.overlap_size 0 none
    (mergeGo cfg.max_size (splitLevels cfg.max_size table text) [])

/-- Modelled from the spec: the engine's error kinds (spec section 7,
missing from the repository sources). -/
inductive EngineError where
  | invalidConfiguration : EngineError
  | invalidLevelTable : EngineError
  | malformedPattern : EngineError
deriving DecidableEq, Repr

/-- Modelled from the spec: a caller-supplied raw configuration, before
validation; sizes are integers so that negative sizes are expressible
(spec sections 3 and 7). -/
structure RawConfig where
  max_size : Int
  min_size : Int
  overlap_size : Int
deriving DecidableEq, Repr

/-- Modelled from the spec: fail-fast configuration validation at splitter
construction time (spec section 7, missing from the repository sources):
`min_size > max_size`, a negative size, or `overlap_size >= max_size`
raises `InvalidConfiguration` before any text is processed. -/
def RawConfig.validate (rc : RawConfig) : Except EngineError Config :=
  if rc.min_size > rc.max_size ∨ rc.min_size < 0 ∨ rc.max_size < 0 ∨
      rc.overlap_size < 0 ∨ rc.overlap_size ≥ rc.max_size then
    .error .invalidConfiguration
  else
    .ok ⟨rc.max_size.toNat, rc.min_size.toNat, rc.overlap_size.toNat⟩

/-- Character-boundary split: the effect of the empty-string separator `""`
used as the last fallback level by the langchain-based splitters (every
piece is a single character, so any text of two or more characters is
split). -/
def charSplit (s : List Char) : List (List Char) := s.map (fun c => [c])

/-- Splitting a text on one literal separator (the semantics of a
non-regex-special separator such as the final `"\n"` of `main.py`'s error
splitter table). -/
def splitByLiteralSep (sep : String) (s : String) : List (List Char) :=
  assembleNext (lexGo [sep.toList] s.toList) []

/-!
Level tables embedded from the repository's source files.
-/

/-- From `chunking_lang.py` (`AnsibleLogSplitter.__init__`): the
`base_separators` list used by the `"context"` (default) splitter type. -/
def base_separators : List String :=
  [ "^PLAY \\[.*?\\] \\*+",
    "^PLAY RECAP \\*+",
    "^TASK \\[.*?\\] \\*+",
    "^RUNNING HANDLER \\[.*?\\] \\*+",
    "^[A-Za-z0-9\\.\\-_]+\\s*:\\s*ok=\\d+",
    "^fatal: \\[.*?\\]: FAILED!",
    "^FAILED - RETRYING:",
    "^UNREACHABLE!",
    "^[A-Za-z]+ \\d+ [A-Za-z]+ \\d{4}\\s+\\d{2}:\\d{2}:\\d{2}",
    "\n\n",
    "\n",
    " ",
    "" ]

/-- From `chunking_lang.py` (`AnsibleLogSplitter.__init__`): the separator
table selected for each `splitter_type`. -/
def ansibleLogSplitterSeparators (splitter_type : String) : List String :=
  if splitter_type = "alert" then
    [ "^fatal: \\[.*?\\]: FAILED!",
      "^UNREACHABLE!",
      "^FAILED - RETRYING:",
      "^TASK \\[.*?\\] \\*+",
      "\n\n", "\n", " ", "" ]
  else if splitter_type = "error" then
    [ "^fatal: \\[.*?\\]: FAILED!",
      "^UNREACHABLE!",
      "^FAILED - RETRYING:",
      "\n\n", "\n", " ", "" ]
  else base_separators

/-- From `chonkie_chunking.py`: the fields of a chonkie `RecursiveLevel`
as constructed by this repository (`delimiters`, the `whitespace` flag and
the optional `include_delim` argument; arguments not passed keep chonkie's
defaults, represented here as the structure's defaults). -/
structure RecursiveLevel where
  delimiters : List String := []
  whitespace : Bool := false
  include_delim : Option String := none
deriving DecidableEq, Repr

/-- From `chonkie_chunking.py`
(`AnsibleChonkieLogSplitter._create_ansible_rules`): the level list built
for each `splitter_type`. -/
def create_ansible_rules (splitter_type : String) : List RecursiveLevel :=
  if splitter_type = "alert" then
    [ { delimiters := ["PLAY RECAP ************"], include_delim := some "next" },
      { delimiters := ["fatal: [", "UNREACHABLE!", "FAILED - RETRYING:"],
        include_delim := some "next" },
      { delimiters := ["TASK ["], include_delim := some "next" },
      { delimiters := ["\n\n"] },
      { whitespace := true } ]
  else if splitter_type = "error" then
    [ { delimiters := ["PLAY RECAP ************"], include_delim := some "next" },
      { delimiters := ["fatal: [", "UNREACHABLE!", "FAILED - RETRYING:", "ERROR!"],
        include_delim := some "next" },
      { delimiters := ["TASK ["], include_delim := some "next" },
      { delimiters := ["\n\n"] },
      { whitespace := true } ]
  else
    [ { delimiters := ["PLAY RECAP ************"], include_delim := some "next" },
      { delimiters := ["PLAY ["], include_delim := some "next" },
      { delimiters := ["TASK [", "RUNNING HANDLER ["], include_delim := some "next" },
      { delimiters := [": ok=", ": changed=", ": failed="], include_delim := some "prev" },
      { delimiters := ["fatal: [", "UNREACHABLE!", "FAILED - RETRYING:"],
        include_delim := some "next" },
      { delimiters := [" +0000 (", " GMT ("], include_delim := some "prev" },
      { delimiters := ["\n\n"] },
      { delimiters := ["\n"] },
      { whitespace := true } ]

/-- From `main.py` (`AnsibleLogSplitter.__init__`): the
`ansible_separators` table used by the alert and context splitters of
`create_ansible_splitters`. -/
def main_ansible_separators : List String :=
  [ "\nPLAY \\[.*?\\] \\*+\n",
    "\nTASK \\[.*?\\] \\*+\n",
    "\nPLAY RECAP \\*+\n",
    "\n[A-Za-z0-9\\.\\-_]+\\s*:\\s*ok=\\d+",
    "\n[A-Za-z]+ \\d+ [A-Za-z]+ \\d{4}\\s+\\d{2}:\\d{2}:\\d{2}",
    "\n\n",
    "\n",
    " ",
    "" ]

/-- From `main.py` (`create_ansible_splitters`): the separator table of the
`error_splitter` (a plain `RecursiveCharacterTextSplitter`).  Its last
level is the literal `"\n"`; the table has no level capable of splitting
newline-free text. -/
def main_error_splitter_separators : List String :=
  [ "\nfatal: \\[.*?\\]: FAILED!",
    "\nERROR!",
    "\nFAILED - RETRYING:",
    "\nUNREACHABLE!",
    "\n\n",
    "\n" ]

/-!
The metadata extractor embedded from `chunking_lang.py`
(`extract_ansible_metadata_from_chunks`).  The fields the verified
invariants concern (`chunk_index`, `chunk_text`, `status`, `has_error`,
`error_type`, `retry_count`) and the two name captures are embedded; the
independent `hosts`, `timestamp` and `duration` regex extractions populate
fields no invariant below constrains and are not embedded.
-/

/-- Lower-case a character list (the effect of the `(?i)` flag on the
ASCII-literal status patterns of the source). -/
def lowerList (s : List Char) : List Char := s.map Char.toLower

/-- Substring test: does `pat` occur inside `s`? -/
def containsSub (pat s : List Char) : Bool :=
  s.tails.any (fun t => pat.isPrefixOf t)

/-- Case-insensitive substring search: the semantics of
`re.search(r'(?i)LIT', chunk)` for a regex-literal pattern `LIT`. -/
def containsCI (s : List Char) (pat : String) : Bool :=
  containsSub (lowerList pat.toList) (lowerList s)

/-- The lazy capture group of `re.search(r'PRE(.*?)\]', chunk)`: the
shortest run of non-newline characters up to a closing `]`, `none` when a
newline or the end of input intervenes. -/
def lazyCapture : List Char → Option (List Char)
  | [] => none
  | c :: rest =>
    if c = ']' then some []
    else if c = '\n' then none
    else (lazyCapture rest).map (fun g => c :: g)

/-- Leftmost-start search for `PRE(.*?)\]`: at each occurrence of the
literal prefix, try the lazy capture; on failure resume at the next
position (Python `re.search` leftmost-match semantics). -/
def findCapture (pre : List Char) : List Char → Option (List Char)
  | [] => none
  | c :: rest =>
    if pre.isPrefixOf (c :: rest) then
      match lazyCapture ((c :: rest).drop pre.length) with
      | some g => some g
      | none => findCapture pre rest
    else findCapture pre rest

/-- Decimal value of a digit run. -/
def digitsToNat (ds : List Char) : Nat :=
  ds.foldl (fun n c => 10 * n + (c.toNat - 48)) 0

/-- Match `\((\d+) retries left\)` at the head of an (already lowercased)
character list. -/
def matchRetryAt : List Char → Option Nat
  | '(' :: rest =>
    if (rest.takeWhile Char.isDigit).isEmpty then none
    else if (" retries left)".toList).isPrefixOf (rest.dropWhile Char.isDigit) then
      some (digitsToNat (rest.takeWhile Char.isDigit))
    else none
  | _ => none

/-- Last match of `\((\d+) retries left\)` inside a line — the greedy `.*`
of the source pattern commits to the last occurrence on the line. -/
def lastRetryOnLine : List Char → Option Nat
  | [] => none
  | c :: rest =>
    match lastRetryOnLine rest with
    | some n => some n
    | none => matchRetryAt (c :: rest)

/-- Scan an (already lowercased) chunk for
`(?i)FAILED - RETRYING:.*\((\d+) retries left\)`: at each occurrence of
the prefix, the rest of that line must contain the retry suffix, else the
search resumes at the next position. -/
def extractRetryCountGo : List Char → Nat
  | [] => 0
  | c :: rest =>
    if ("failed - retrying:".toList).isPrefixOf (c :: rest) then
      match lastRetryOnLine
          (((c :: rest).drop ("failed - retrying:".toList).length).takeWhile
            (fun x => x ≠ '\n')) with
      | some n => n
      | none => extractRetryCountGo rest
    else extractRetryCountGo rest

/-- From `chunking_lang.py`: the retry-count extraction
`re.search(r'(?i)FAILED - RETRYING:.*\((\d+) retries left\)', chunk)`,
defaulting to `0` when there is no match. -/
def extractRetryCount (chunk : List Char) : Nat :=
  extractRetryCountGo (lowerList chunk)

/-- The status strings assigned by `chunking_lang.py`'s extractor. -/
inductive StatusValue where
  | FAILED | UNREACHABLE | RETRYING | CHANGED | OK | SKIPPING
deriving DecidableEq, Repr

/-- The error-type strings assigned by `chunking_lang.py`'s extractor. -/
inductive ErrorType where
  | TASK_FAILED | HOST_UNREACHABLE | RETRY_FAILURE
deriving DecidableEq, Repr

/-- From `chunking_lang.py` (lines 144–166): the status / error
classification chain — a first-match if/elif cascade over case-insensitive
literal patterns, with the retry count extracted only in the RETRYING
branch.  Returns `(status, has_error, error_type, retry_count)`. -/
def langStatusFields (chunk : List Char) :
    Option StatusValue × Bool × Option ErrorType × Nat :=
  if containsCI chunk "FAILED!" then
    (some .FAILED, true, some .TASK_FAILED, 0)
  else if containsCI chunk "UNREACHABLE!" then
    (some .UNREACHABLE, true, some .HOST_UNREACHABLE, 0)
  else if containsCI chunk "FAILED - RETRYING" then
    (some .RETRYING, true, some .RETRY_FAILURE, extractRetryCount chunk)
  else if containsCI chunk "changed:" then
    (some .CHANGED, false, none, 0)
  else if containsCI chunk "ok:" then
    (some .OK, false, none, 0)
  else if containsCI chunk "skipping:" then
    (some .SKIPPING, false, none, 0)
  else (none, false, none, 0)

/-- The metadata record emitted by `chunking_lang.py`'s
`extract_ansible_metadata_from_chunks` (the fields the invariants below
concern; see the section comment). -/
structure LangChunkMetadata where
  chunk_index : Nat
  chunk_text : List Char
  playbook_name : Option (List Char)
  task_name : Option (List Char)
  status : Option StatusValue
  has_error : Bool
  error_type : Option ErrorType
  retry_count : Nat
deriving DecidableEq, Repr

/-- The record built for one chunk at position `i` of the chunk list. -/
def mkLangMetadata (i : Nat) (chunk : List Char) : LangChunkMetadata :=
  { chunk_index := i
    chunk_text := chunk
    playbook_name := findCapture ("PLAY [".toList) chunk
    task_name := findCapture ("TASK [".toList) chunk
    status := (langStatusFields chunk).1
    has_error := (langStatusFields chunk).2.1
    error_type := (langStatusFields chunk).2.2.1
    retry_count := (langStatusFields chunk).2.2.2 }

/-- The `for i, chunk in enumerate(chunks)` loop of the extractor. -/
def extractGo (i : Nat) : List (List Char) → List LangChunkMetadata
  | [] => []
  | c :: rest => mkLangMetadata i c :: extractGo (i + 1) rest

/-- From `chunking_lang.py`: `extract_ansible_metadata_from_chunks`. -/
def extract_ansible_metadata_from_chunks (chunks : List (List Char)) :
    List LangChunkMetadata :=
  extractGo 0 chunks

/-- The status/error invariant of the extractor's emitted records:
`has_error` exactly when an `error_type` is set, exactly when the status
is one of FAILED / UNREACHABLE / RETRYING; the status is assigned by
first-match priority in the source's fixed cascade order; the retry count
is nonzero only in the RETRYING branch. -/
def langStatusInvariant (m : LangChunkMetadata) : Prop :=
  (m.has_error = true ↔ m.error_type ≠ none)
  ∧ (m.has_error = true ↔
      (m.status = some .FAILED ∨ m.status = some .UNREACHABLE ∨
        m.status = some .RETRYING))
  ∧ (containsCI m.chunk_text "FAILED!" = true → m.status = some .FAILED)
  ∧ (containsCI m.chunk_text "FAILED!" = false →
      containsCI m.chunk_text "UNREACHABLE!" = true →
      m.status = some .UNREACHABLE)
  ∧ (containsCI m.chunk_text "FAILED!" = false →
      containsCI m.chunk_text "UNREACHABLE!" = false →
      containsCI m.chunk_text "FAILED - RETRYING" = true →
      m.status = some .RETRYING)
  ∧ (containsCI m.chunk_text "FAILED!" = false →
      containsCI m.chunk_text "UNREACHABLE!" = false →
      containsCI m.chunk_text "FAILED - RETRYING" = false →
      containsCI m.chunk_text "changed:" = true →
      m.status = some .CHANGED)
  ∧ (containsCI m.chunk_text "FAILED!" = false →
      containsCI m.chunk_text "UNREACHABLE!" = false →
      containsCI m.chunk_text "FAILED - RETRYING" = false →
      containsCI m.chunk_text "changed:" = false →
      containsCI m.chunk_text "ok:" = true →
      m.status = some .OK)
  ∧ (containsCI m.chunk_text "FAILED!" = false →
      containsCI m.chunk_text "UNREACHABLE!" = false →
      containsCI m.chunk_text "FAILED - RETRYING" = false →
      containsCI m.chunk_text "changed:" = false →
      containsCI m.chunk_text "ok:" = false →
      containsCI m.chunk_text "skipping:" = true →
      m.status = some .SKIPPING)
  ∧ (containsCI m.chunk_text "FAILED!" = false →
      containsCI m.chunk_text "UNREACHABLE!" = false →
      containsCI m.chunk_text "FAILED - RETRYING" = false →
      containsCI m.chunk_text "changed:" = false →
      containsCI m.chunk_text "ok:" = false →
      containsCI m.chunk_text "skipping:" = false →
      m.status = none)
  ∧ (m.retry_count ≠ 0 → m.status = some .RETRYING)

/-- The relation holding between consecutive chunks of the output stream:
monotone start offsets, contiguous core regions, and the chunk text being
the previous core's trailing `V` characters followed by the own core
(`a.core.drop (a.core.length - V)` is exactly the last
`min V a.core.length` characters of the previous core, so the overlap
never reaches before the previous core's start offset). -/
def matRel (V : Nat) (a b : Chunk) : Prop :=
  a.start_offset ≤ b.start_offset
  ∧ b.end_offset = a.end_offset + b.core.length
  ∧ b.text = a.core.drop (a.core.length - V) ++ b.core

instance (V : Nat) (a b : Chunk) : Decidable (matRel V a b) := by
  unfold matRel
  infer_instance

/-- The full-coverage contract of the pipeline entry point (spec
section 4.5): concatenating the chunks' core regions reproduces the text,
chunks are ordered by start offset with contiguous cores (no gaps, no
overlaps between cores), the first chunk's core starts at offset 0, and
the last chunk ends at `text.length`. -/
def coverageSpec (table : List RuleLevel) (cfg : Config) (text : List Char) : Prop :=
  ((segment table cfg text).map Chunk.core).flatten = text
  ∧ List.Chain'
      (fun a b => a.start_offset ≤ b.start_offset
        ∧ b.end_offset = a.end_offset + b.core.length)
      (segment table cfg text)
  ∧ (∀ c, (segment table cfg text).head? = some c →
      c.start_offset = 0 ∧ c.end_offset = c.core.length)
  ∧ (∀ c, (segment table cfg text).getLast? = some c →
      c.end_offset = text.length)

/-- A one-level table holding only the universal whitespace fallback level
(used to instantiate the engine contracts on concrete inputs). -/
def wsLevel : RuleLevel := ⟨[], true, Inclusion.attachPrev⟩

/-- The overlap contract of the Packer/Merger (spec sections 4.3 and 8):
every chunk after the first starts with the trailing `overlap_size`
characters of the previous chunk's core region followed by its own core
(the `matRel` chain), each chunk's end offset is the core-partition
boundary (unchanged by overlap), and the overlap only ever extends a chunk
backward: `start_offset + text.length = end_offset` holds without
truncation, so the text never reaches before offset 0. -/
def overlapSpec (table : List RuleLevel) (cfg : Config) (text : List Char) : Prop :=
  List.Chain' (matRel cfg.overlap_size) (segment table cfg text)
  ∧ ∀ c ∈ segment table cfg text,
      c.start_offset + c.text.length = c.end_offset

/-!
Lemmas: the lexers and assemblers preserve the text exactly.
-/

theorem consPlain_flatten (c : Char) (segs : List Seg) :
    ((consPlain c segs).map Seg.content).flatten =
      c :: (segs.map Seg.content).flatten := by
  cases segs with
  | nil => simp [consPlain, Seg.content]
  | cons hd tl => cases hd <;> simp [consPlain, Seg.content]

theorem lexGoF_cons_some (delims : List (List Char)) (fuel : Nat) (c : Char)
    (rest d : List Char)
    (h : delims.find? (fun d => !d.isEmpty && d.isPrefixOf (c :: rest)) = some d) :
    lexGoF delims (fuel + 1) (c :: rest) =
      .delim d :: lexGoF delims fuel ((c :: rest).drop d.length) := by
  rw [lexGoF, h]

theorem lexGoF_cons_none (delims : List (List Char)) (fuel : Nat) (c : Char)
    (rest : List Char)
    (h : delims.find? (fun d => !d.isEmpty && d.isPrefixOf (c :: rest)) = none) :
    lexGoF delims (fuel + 1) (c :: rest) = consPlain c (lexGoF delims fuel rest) := by
  rw [lexGoF, h]

theorem lexGoF_flatten (delims : List (List Char)) :
    ∀ (fuel : Nat) (s : List Char), s.length ≤ fuel →
      ((lexGoF delims fuel s).map Seg.content).flatten = s := by
  intro fuel
  induction fuel with
  | zero =>
    intro s hs
    cases s with
    | nil => rfl
    | cons c rest => simp at hs
  | succ fuel ih =>
    intro s hs
    cases s with
    | nil => rfl
    | cons c rest =>
      match h : delims.find? (fun d => !d.isEmpty && d.isPrefixOf (c :: rest)) with
      | some d =>
        rw [lexGoF_cons_some delims fuel c rest d h]
        have hp := List.find?_some h
        simp only [Bool.and_eq_true, Bool.not_eq_true'] at hp
        have hd : d ≠ [] := by
          intro hnil
          rw [hnil] at hp
          simp [List.isEmpty] at hp
        have hdpos : 0 < d.length := List.length_pos.mpr hd
        have hlen : ((c :: rest).drop d.length).length ≤ fuel := by
          simp only [List.length_drop, List.length_cons]
          simp only [List.length_cons] at hs
          omega
        simp only [List.map_cons, List.flatten_cons, Seg.content, ih _ hlen]
        obtain ⟨t, ht⟩ := List.isPrefixOf_iff_prefix.mp hp.2
        rw [← ht, List.drop_left]
      | none =>
        rw [lexGoF_cons_none delims fuel c rest h]
        have hlen : rest.length ≤ fuel := by
          simp only [List.length_cons] at hs
          omega
        rw [consPlain_flatten, ih _ hlen]

theorem lexGo_flatten (delims : List (List Char)) (s : List Char) :
    ((lexGo delims s).map Seg.content).flatten = s :=
  lexGoF_flatten delims s.length s le_rfl

theorem lexWsF_flatten :
    ∀ (fuel : Nat) (s : List Char), s.length ≤ fuel →
      ((lexWsF fuel s).map Seg.content).flatten = s := by
  intro fuel
  induction fuel with
  | zero =>
    intro s hs
    cases s with
    | nil => rfl
    | cons c rest => simp at hs
  | succ fuel ih =>
    intro s hs
    cases s with
    | nil => rfl
    | cons c rest =>
      simp only [List.length_cons] at hs
      by_cases h : c.isWhitespace
      · rw [lexWsF, if_pos h]
        have hlen : (rest.dropWhile Char.isWhitespace).length ≤ fuel := by
          have := (List.dropWhile_sublist (l := rest) (p := Char.isWhitespace)).length_le
          omega
        simp only [List.map_cons, List.flatten_cons, Seg.content, List.cons_append]
        rw [ih _ hlen, List.takeWhile_append_dropWhile]
      · rw [lexWsF, if_neg h]
        have hlen : (rest.dropWhile (fun x => !x.isWhitespace)).length ≤ fuel := by
          have := (List.dropWhile_sublist (l := rest)
            (p := fun x => !x.isWhitespace)).length_le
          omega
        simp only [List.map_cons, List.flatten_cons, Seg.content, List.cons_append]
        rw [ih _ hlen, List.takeWhile_append_dropWhile]

theorem lexWs_flatten (s : List Char) :
    ((lexWs s).map Seg.content).flatten = s :=
  lexWsF_flatten s.length s le_rfl

theorem assembleNext_flatten (segs : List Seg) :
    ∀ acc : List Char,
      (assembleNext segs acc).flatten = acc ++ (segs.map Seg.content).flatten := by
  induction segs with
  | nil =>
    intro acc
    by_cases h : acc.isEmpty
    · rw [List.isEmpty_iff.mp h]; simp [assembleNext]
    · simp [assembleNext, h]
  | cons hd tl ih =>
    intro acc
    cases hd with
    | plain s => simp [assembleNext, ih, Seg.content]
    | delim d =>
      by_cases h : acc.isEmpty
      · rw [show acc = [] from List.isEmpty_iff.mp h]
        simp [assembleNext, ih, Seg.content]
      · simp [assembleNext, h, ih, Seg.content]

theorem assemblePrev_flatten (segs : List Seg) :
    ∀ acc : List Char,
      (assemblePrev segs acc).flatten = acc ++ (segs.map Seg.content).flatten := by
  induction segs with
  | nil =>
    intro acc
    by_cases h : acc.isEmpty
    · rw [List.isEmpty_iff.mp h]; simp [assemblePrev]
    · simp [assemblePrev, h]
  | cons hd tl ih =>
    intro acc
    cases hd with
    | plain s => simp [assemblePrev, ih, Seg.content]
    | delim d => simp [assemblePrev, ih, Seg.content]

theorem assemble_flatten (inc : Inclusion) (segs : List Seg) :
    (assemble inc segs).flatten = (segs.map Seg.content).flatten := by
  cases inc <;>
    simp [assemble, assembleNext_flatten, assemblePrev_flatten]

theorem splitByLevel_flatten (lvl : RuleLevel) (s : List Char) :
    (splitByLevel lvl s).flatten = s := by
  unfold splitByLevel
  split_ifs with h1 h2 h3
  · rw [assemble_flatten, lexWs_flatten]
  · simp [List.take_append_drop]
  · simp
  · rw [assemble_flatten, lexGo_flatten]

theorem splitLevelsF_flatten (maxSize : Nat) :
    ∀ (fuel : Nat) (levels : List RuleLevel), levels.length ≤ fuel →
      ∀ s : List Char, (splitLevelsF maxSize fuel levels s).flatten = s := by
  intro fuel
  induction fuel with
  | zero =>
    intro levels hlev s
    cases levels with
    | nil => simp [splitLevelsF]
    | cons lvl rest => simp at hlev
  | succ fuel ih =>
    intro levels hlev s
    cases levels with
    | nil => simp [splitLevelsF]
    | cons lvl rest =>
      simp only [List.length_cons] at hlev
      have hrest : rest.length ≤ fuel := by omega
      rw [splitLevelsF]
      by_cases h : (splitByLevel lvl s).length ≤ 1
      · rw [if_pos h]; exact ih rest hrest s
      · rw [if_neg h]
        have haux : ∀ ps : List (List Char),
            ((ps.map fun p =>
              if p.length ≤ maxSize then [p]
              else splitLevelsF maxSize fuel rest p).flatten).flatten = ps.flatten := by
          intro ps
          induction ps with
          | nil => simp
          | cons p ps ihp =>
            by_cases hp : p.length ≤ maxSize <;> simp [hp, ihp, ih rest hrest]
        rw [haux, splitByLevel_flatten]

theorem splitLevels_flatten (maxSize : Nat) (levels : List RuleLevel)
    (s : List Char) : (splitLevels maxSize levels s).flatten = s :=
  splitLevelsF_flatten maxSize levels.length levels le_rfl s

theorem splitByLevel_nil_short (lvl : RuleLevel) :
    (splitByLevel lvl []).length ≤ 1 := by
  unfold splitByLevel
  split_ifs with h1 h2 h3
  · simp at h2
  · simp at h3
  · simp
  · cases lvl.inclusion <;>
      simp [assemble, lexGo, lexGoF, assembleNext, assemblePrev]

theorem splitLevelsF_nil (maxSize : Nat) :
    ∀ (fuel : Nat) (levels : List RuleLevel), levels.length ≤ fuel →
      splitLevelsF maxSize fuel levels [] = [[]] := by
  intro fuel
  induction fuel with
  | zero =>
    intro levels hlev
    cases levels with
    | nil => simp [splitLevelsF]
    | cons lvl rest => simp at hlev
  | succ fuel ih =>
    intro levels hlev
    cases levels with
    | nil => simp [splitLevelsF]
    | cons lvl rest =>
      simp only [List.length_cons] at hlev
      rw [splitLevelsF, if_pos (splitByLevel_nil_short lvl)]
      exact ih rest (by omega)

theorem splitLevels_nil (maxSize : Nat) (levels : List RuleLevel) :
    splitLevels maxSize levels [] = [[]] :=
  splitLevelsF_nil maxSize levels.length levels le_rfl

/-!
Lemmas about the Packer/Merger.
-/

theorem mergeGo_flatten (maxSize : Nat) (ps : List (List Char)) :
    ∀ buf : List Char,
      ((mergeGo maxSize ps buf).map Prod.fst).flatten = buf ++ ps.flatten := by
  induction ps with
  | nil =>
    intro buf
    by_cases h : buf.isEmpty
    · rw [List.isEmpty_iff.mp h]; simp [mergeGo]
    · simp [mergeGo, h]
  | cons p ps ih =>
    intro buf
    rw [mergeGo]
    by_cases h1 : maxSize < buf.length + p.length
    · rw [if_pos h1]
      by_cases h2 : buf.isEmpty
      · rw [if_pos h2, List.isEmpty_iff.mp h2]
        simp [ih]
      · rw [if_neg h2]
        by_cases h3 : maxSize < p.length
        · rw [if_pos h3]; simp [ih]
        · rw [if_neg h3]; simp [ih]
    · rw [if_neg h1, ih]
      simp

theorem mergeGo_bound (maxSize : Nat) (ps : List (List Char)) :
    ∀ buf : List Char, buf.length ≤ maxSize →
      ∀ cb ∈ mergeGo maxSize ps buf, cb.2 = false → cb.1.length ≤ maxSize := by
  induction ps with
  | nil =>
    intro buf hbuf cb hcb hflag
    rw [mergeGo] at hcb
    by_cases h : buf.isEmpty
    · rw [if_pos h] at hcb; simp at hcb
    · rw [if_neg h] at hcb
      simp only [List.mem_singleton] at hcb
      rw [hcb]
      exact hbuf
  | cons p ps ih =>
    intro buf hbuf cb hcb hflag
    rw [mergeGo] at hcb
    by_cases h1 : maxSize < buf.length + p.length
    · rw [if_pos h1] at hcb
      by_cases h2 : buf.isEmpty
      · rw [if_pos h2] at hcb
        rcases List.mem_cons.mp hcb with h | h
        · rw [h] at hflag; simp at hflag
        · exact ih [] (Nat.zero_le _) cb h hflag
      · rw [if_neg h2] at hcb
        rcases List.mem_cons.mp hcb with h | h
        · rw [h]; exact hbuf
        · by_cases h3 : maxSize < p.length
          · rw [if_pos h3] at h
            rcases List.mem_cons.mp h with h' | h'
            · rw [h'] at hflag; simp at hflag
            · exact ih [] (Nat.zero_le _) cb h' hflag
          · rw [if_neg h3] at h
            exact ih p (Nat.le_of_not_lt h3) cb h hflag
    · rw [if_neg h1] at hcb
      exact ih (buf ++ p) (by simpa using Nat.le_of_not_lt h1) cb hcb hflag

theorem mergeGo_oversized_mem (maxSize : Nat) (ps : List (List Char)) :
    ∀ (buf p : List Char), p ∈ ps → maxSize < p.length →
      (p, true) ∈ mergeGo maxSize ps buf := by
  induction ps with
  | nil => intro buf p hp; simp at hp
  | cons q ps ih =>
    intro buf p hp hbig
    rw [mergeGo]
    rcases List.mem_cons.mp hp with h | h
    · subst h
      have h1 : maxSize < buf.length + p.length := by omega
      rw [if_pos h1]
      by_cases h2 : buf.isEmpty
      · rw [if_pos h2]; exact List.mem_cons_self _ _
      · rw [if_neg h2, if_pos hbig]
        exact List.mem_cons_of_mem _ (List.mem_cons_self _ _)
    · by_cases h1 : maxSize < buf.length + q.length
      · rw [if_pos h1]
        by_cases h2 : buf.isEmpty
        · rw [if_pos h2]
          exact List.mem_cons_of_mem _ (ih [] p h hbig)
        · rw [if_neg h2]
          by_cases h3 : maxSize < q.length
          · rw [if_pos h3]
            exact List.mem_cons_of_mem _ (List.mem_cons_of_mem _ (ih [] p h hbig))
          · rw [if_neg h3]
            exact List.mem_cons_of_mem _ (ih q p h hbig)
      · rw [if_neg h1]
        exact ih (buf ++ q) p h hbig

/-!
Lemmas about overlap injection (`materialize`).
-/

theorem materialize_flags (V : Nat) (cs : List (List Char × Bool)) :
    ∀ (start : Nat) (prev : Option (List Char)),
      (materialize V start prev cs).map (fun ch => (ch.core, ch.oversized)) = cs := by
  induction cs with
  | nil => intro start prev; simp [materialize]
  | cons cb rest ih =>
    intro start prev
    rw [materialize]
    simp only [List.map_cons, ih]

theorem materialize_chain (V : Nat) (cs : List (List Char × Bool)) :
    ∀ (start : Nat) (prev : Option (List Char)),
      List.Chain' (matRel V) (materialize V start prev cs) := by
  induction cs with
  | nil => intro start prev; simp [materialize]
  | cons cb rest ih =>
    intro start prev
    cases rest with
    | nil => simp [materialize]
    | cons cb2 rest2 =>
      rw [materialize, materialize]
      refine List.Chain'.cons ?_ ?_
      · unfold matRel
        refine ⟨?_, rfl, by simp [ovlOf]⟩
        simp only [ovlOf, List.length_drop]
        omega
      · have := ih (start + cb.1.length) (some cb.1)
        rw [materialize] at this
        exact this

theorem materialize_head (V : Nat) (cs : List (List Char × Bool)) (c : Chunk)
    (h : (materialize V 0 none cs).head? = some c) :
    c.start_offset = 0 ∧ c.end_offset = c.core.length := by
  cases cs with
  | nil => simp [materialize] at h
  | cons cb rest =>
    rw [materialize] at h
    simp only [List.head?_cons, Option.some.injEq] at h
    rw [← h]
    simp

theorem getLast?_cons_of_ne {α : Type} (a : α) (l : List α) (h : l ≠ []) :
    (a :: l).getLast? = l.getLast? := by
  cases l with
  | nil => exact absurd rfl h
  | cons b t => rw [List.getLast?_cons_cons]

theorem materialize_last (V : Nat) (cs : List (List Char × Bool)) :
    ∀ (start : Nat) (prev : Option (List Char)) (c : Chunk),
      (materialize V start prev cs).getLast? = some c →
        c.end_offset = start + ((cs.map Prod.fst).flatten).length := by
  induction cs with
  | nil => intro start prev c h; simp [materialize] at h
  | cons cb rest ih =>
    intro start prev c h
    cases rest with
    | nil =>
      rw [materialize] at h
      simp only [materialize, List.getLast?_singleton, Option.some.injEq] at h
      rw [← h]
      simp
    | cons cb2 rest2 =>
      rw [materialize] at h
      have hne : materialize V (start + cb.1.length) (some cb.1) (cb2 :: rest2) ≠ [] := by
        rw [materialize]
        exact List.cons_ne_nil _ _
      rw [getLast?_cons_of_ne _ _ hne] at h
      have := ih (start + cb.1.length) (some cb.1) c h
      rw [this]
      simp only [List.map_cons, List.flatten_cons, List.length_append]
      omega

theorem materialize_text_core (V : Nat) (cs : List (List Char × Bool)) :
    ∀ (start : Nat) (prev : Option (List Char)),
      V = 0 → ∀ ch ∈ materialize V start prev cs, ch.text = ch.core := by
  induction cs with
  | nil => intro start prev _ ch h; simp [materialize] at h
  | cons cb rest ih =>
    intro start prev hV ch h
    rw [materialize] at h
    rcases List.mem_cons.mp h with h' | h'
    · subst h'
      cases prev with
      | none => simp [ovlOf]
      | some pc => simp [ovlOf, hV, List.drop_length]
    · exact ih (start + cb.1.length) (some cb.1) hV ch h'

theorem materialize_backward (V : Nat) (cs : List (List Char × Bool)) :
    ∀ (start : Nat) (prev : Option (List Char)),
      (ovlOf V prev).length ≤ start →
      ∀ ch ∈ materialize V start prev cs,
        ch.start_offset + ch.text.length = ch.end_offset := by
  induction cs with
  | nil => intro start prev _ ch h; simp [materialize] at h
  | cons cb rest ih =>
    intro start prev hprev ch h
    rw [materialize] at h
    rcases List.mem_cons.mp h with h' | h'
    · subst h'
      simp only [List.length_append]
      omega
    · refine ih (start + cb.1.length) (some cb.1) ?_ ch h'
      simp only [ovlOf, List.length_drop]
      omega

/-!
The claims.
-/

/-- Claim C1: for every input text and valid configuration, the chunk
stream returned by the segmentation entry point covers the input exactly —
chunks are ordered by start offset, the first chunk starts at offset 0,
the last chunk ends at `text.length`, and concatenating the chunks' core
(non-overlap) regions in order reproduces the original text with no gaps
and no overlaps. -/
theorem chunk_stream_full_coverage (table : List RuleLevel) (cfg : Config)
    (text : List Char) (hcfg : cfg.valid) : coverageSpec table cfg text := by
  have hflags := materialize_flags cfg.overlap_size
    (mergeGo cfg.max_size (splitLevels cfg.max_size table text) []) 0 none
  have hcore : (segment table cfg text).map Chunk.core =
      (mergeGo cfg.max_size (splitLevels cfg.max_size table text) []).map Prod.fst := by
    rw [← hflags, List.map_map]
    rfl
  refine ⟨?_, ?_, ?_, ?_⟩
  · rw [hcore, mergeGo_flatten, splitLevels_flatten]
    rfl
  · refine List.Chain'.imp ?_ (materialize_chain cfg.overlap_size _ 0 none)
    intro a b hab
    exact ⟨hab.1, hab.2.1⟩
  · intro c hc
    exact materialize_head cfg.overlap_size _ c hc
  · intro c hc
    have := materialize_last cfg.overlap_size _ 0 none c hc
    rw [this, mergeGo_flatten, splitLevels_flatten]
    simp

/-- Witness for C1 at a concrete valid configuration and input. -/
theorem chunk_stream_full_coverage_witness :
    Config.valid ⟨4, 0, 3⟩ ∧ coverageSpec [wsLevel] ⟨4, 0, 3⟩ (List.replicate 8 'a') :=
  ⟨by decide, chunk_stream_full_coverage [wsLevel] ⟨4, 0, 3⟩ _ (by decide)⟩

/-- Claim C2 (counterexample): with a valid configuration whose overlap is
positive, the engine emits a chunk that is not flagged oversized but whose
text — the overlap prefix plus the core — measures more than `max_size`
under the character measure, so the size bound on `chunk.text` as stated
is false. -/
theorem size_bound_text_counterexample :
    Config.valid ⟨4, 0, 3⟩ ∧
      ∃ c ∈ segment [wsLevel] ⟨4, 0, 3⟩ (List.replicate 8 'a'),
        c.oversized = false ∧ 4 < c.text.length := by
  refine ⟨by decide,
    ⟨⟨List.replicate 7 'a', List.replicate 4 'a', 1, 8, false⟩, by decide, rfl, by decide⟩⟩

/-- Claim C2 (amended): for every chunk not flagged oversized, the
character measure of the chunk's core (non-overlap) region is at most
`max_size`; when `overlap_size = 0` the chunk's text equals its core, so
the bound then also holds for `chunk.text` (with a positive overlap the
text may measure up to `max_size + overlap_size`; see the
counterexample). -/
theorem size_bound_on_cores (table : List RuleLevel) (cfg : Config)
    (text : List Char) (c : Chunk) (hc : c ∈ segment table cfg text)
    (hflag : c.oversized = false) :
    c.core.length ≤ cfg.max_size ∧ (cfg.overlap_size = 0 → c.text = c.core) := by
  constructor
  · have hflags := materialize_flags cfg.overlap_size
      (mergeGo cfg.max_size (splitLevels cfg.max_size table text) []) 0 none
    have hmem : (c.core, c.oversized) ∈
        mergeGo cfg.max_size (splitLevels cfg.max_size table text) [] := by
      rw [← hflags]
      exact List.mem_map_of_mem _ hc
    exact mergeGo_bound cfg.max_size _ [] (Nat.zero_le _) _ hmem hflag
  · intro hV
    exact materialize_text_core cfg.overlap_size _ 0 none hV c hc

/-- Witness for the amended C2 at a concrete chunk of a concrete run. -/
theorem size_bound_on_cores_witness :
    (⟨List.replicate 4 'a', List.replicate 4 'a', 0, 4, false⟩ : Chunk) ∈
        segment [wsLevel] ⟨4, 0, 0⟩ (List.replicate 8 'a') ∧
      (⟨List.replicate 4 'a', List.replicate 4 'a', 0, 4, false⟩ : Chunk).oversized = false ∧
      ((⟨List.replicate 4 'a', List.replicate 4 'a', 0, 4, false⟩ : Chunk).core.length ≤ 4 ∧
        ((0 : Nat) = 0 →
          (⟨List.replicate 4 'a', List.replicate 4 'a', 0, 4, false⟩ : Chunk).text =
            (⟨List.replicate 4 'a', List.replicate 4 'a', 0, 4, false⟩ : Chunk).core)) :=
  ⟨by decide, rfl,
    size_bound_on_cores [wsLevel] ⟨4, 0, 0⟩ (List.replicate 8 'a') _ (by decide) rfl⟩

/-- Claim C3 (counterexample): the error-splitter table constructed by
`main.py`'s `create_ansible_splitters` ends with the literal separator
`"\n"`, which does not split the non-empty newline-free text `"ab"`
(splitting yields the text back unsplit), and its construction is an
unconditional value — no `InvalidLevelTable` check exists anywhere in the
sources — so the program does construct a level table with no universal
fallback, without failing fast. -/
theorem level_table_fallback_counterexample :
    main_error_splitter_separators.getLast? = some "\n" ∧
      splitByLiteralSep "\n" "ab" = ["ab".toList] ∧ "ab" ≠ "" := by
  refine ⟨by decide, by decide, by decide⟩

/-- Claim C3 (amended): the tables built by `chunking_lang.py`'s
`AnsibleLogSplitter` (all three splitter types) end with the empty-string
separator — a character-boundary split, whose piece count equals the text
length, hence it splits every text of two or more characters — and the
tables built by `chonkie_chunking.py`'s `_create_ansible_rules` (all three
types) end with a whitespace fallback level; `main.py`'s
`ansible_separators` also ends with `""`; but the error splitter of
`main.py`'s `create_ansible_splitters` ends with `"\n"`, which fails to
split the newline-free text `"ab"`, and no table construction validates or
raises `InvalidLevelTable`. -/
theorem level_tables_fallback_status :
    (ansibleLogSplitterSeparators "alert").getLast? = some ""
    ∧ (ansibleLogSplitterSeparators "error").getLast? = some ""
    ∧ (ansibleLogSplitterSeparators "context").getLast? = some ""
    ∧ (create_ansible_rules "alert").getLast? = some { whitespace := true }
    ∧ (create_ansible_rules "error").getLast? = some { whitespace := true }
    ∧ (create_ansible_rules "context").getLast? = some { whitespace := true }
    ∧ main_ansible_separators.getLast? = some ""
    ∧ main_error_splitter_separators.getLast? = some "\n"
    ∧ splitByLiteralSep "\n" "ab" = ["ab".toList]
    ∧ (∀ s : List Char, (charSplit s).length = s.length) := by
  refine ⟨by decide, by decide, by decide, by decide, by decide, by decide,
    by decide, by decide, by decide, ?_⟩
  intro s
  simp [charSplit]

/-- Claim C4: constructing a splitter with an invalid configuration —
`min_size > max_size`, a negative size, or `overlap_size >= max_size` —
fails fast with an `InvalidConfiguration` error before any text is
processed. -/
theorem invalid_configuration_fails_fast (rc : RawConfig)
    (h : rc.min_size > rc.max_size ∨ rc.min_size < 0 ∨ rc.max_size < 0 ∨
      rc.overlap_size < 0 ∨ rc.overlap_size ≥ rc.max_size) :
    rc.validate = Except.error EngineError.invalidConfiguration := by
  unfold RawConfig.validate
  rw [if_pos h]

/-- Witness for C4 at a concrete invalid configuration
(`min_size = 5 > 3 = max_size`). -/
theorem invalid_configuration_fails_fast_witness :
    ((⟨3, 5, 0⟩ : RawConfig).min_size > (⟨3, 5, 0⟩ : RawConfig).max_size ∨
        (⟨3, 5, 0⟩ : RawConfig).min_size < 0 ∨
        (⟨3, 5, 0⟩ : RawConfig).max_size < 0 ∨
        (⟨3, 5, 0⟩ : RawConfig).overlap_size < 0 ∨
        (⟨3, 5, 0⟩ : RawConfig).overlap_size ≥ (⟨3, 5, 0⟩ : RawConfig).max_size) ∧
      RawConfig.validate ⟨3, 5, 0⟩ = Except.error EngineError.invalidConfiguration :=
  ⟨by decide, invalid_configuration_fails_fast ⟨3, 5, 0⟩ (by decide)⟩

/-- Claim C5: an atomic fragment that the recursion could not bring under
`max_size` does not fail the pipeline (segmentation is a total function):
it is emitted as a chunk whose core is exactly that fragment, and the
budget violation is observable through the chunk's `oversized` flag. -/
theorem oversized_fragment_emitted (table : List RuleLevel) (cfg : Config)
    (text p : List Char) (hp : p ∈ splitLevels cfg.max_size table text)
    (hbig : cfg.max_size < p.length) :
    ∃ ch ∈ segment table cfg text, ch.core = p ∧ ch.oversized = true := by
  have hmem := mergeGo_oversized_mem cfg.max_size _ [] p hp hbig
  have hflags := materialize_flags cfg.overlap_size
    (mergeGo cfg.max_size (splitLevels cfg.max_size table text) []) 0 none
  rw [← hflags] at hmem
  obtain ⟨ch, hch, heq⟩ := List.mem_map.mp hmem
  refine ⟨ch, hch, ?_, ?_⟩
  · exact congrArg Prod.fst heq
  · exact congrArg Prod.snd heq

/-- Witness for C5: with `max_size = 3`, an 8-character run with no
whitespace leaves atomic 4-character fragments, which come out flagged. -/
theorem oversized_fragment_emitted_witness :
    List.replicate 4 'a' ∈ splitLevels 3 [wsLevel] (List.replicate 8 'a') ∧
      3 < (List.replicate 4 'a').length ∧
      ∃ ch ∈ segment [wsLevel] ⟨3, 0, 0⟩ (List.replicate 8 'a'),
        ch.core = List.replicate 4 'a' ∧ ch.oversized = true :=
  ⟨by decide, by decide,
    oversized_fragment_emitted [wsLevel] ⟨3, 0, 0⟩ (List.replicate 8 'a')
      (List.replicate 4 'a') (by decide) (by decide)⟩

/-- Claim C6: with a positive overlap `V`, every chunk after the first
begins with the trailing `V` characters of the previous chunk's core
region (`matRel`), each end offset is the untouched core-partition
boundary, and overlap extends a chunk backward only, never reaching before
offset 0 of the original text. -/
theorem overlap_prefix_from_previous_core (table : List RuleLevel)
    (cfg : Config) (text : List Char) (hV : 0 < cfg.overlap_size) :
    overlapSpec table cfg text := by
  refine ⟨materialize_chain cfg.overlap_size _ 0 none, ?_⟩
  intro c hc
  exact materialize_backward cfg.overlap_size _ 0 none (by simp [ovlOf]) c hc

/-- Witness for C6 at a concrete positive-overlap run. -/
theorem overlap_prefix_from_previous_core_witness :
    0 < (⟨4, 0, 3⟩ : Config).overlap_size ∧
      overlapSpec [wsLevel] ⟨4, 0, 3⟩ (List.replicate 8 'a') :=
  ⟨by decide,
    overlap_prefix_from_previous_core [wsLevel] ⟨4, 0, 3⟩ (List.replicate 8 'a')
      (by decide)⟩

/-- Claim C7: segmentation is deterministic — the output chunk stream
depends on nothing but the `(text, level table, size measure)` triple (the
size measure being the character count built into the embedding); the
engine is a pure function, so equal inputs give equal outputs. -/
theorem segmentation_deterministic (t1 t2 : List Char)
    (tb1 tb2 : List RuleLevel) (c1 c2 : Config) (ht : t1 = t2)
    (htb : tb1 = tb2) (hc : c1 = c2) :
    segment tb1 c1 t1 = segment tb2 c2 t2 := by
  rw [ht, htb, hc]

/-- Witness for C7: two runs on the same concrete triple coincide. -/
theorem segmentation_deterministic_witness :
    List.replicate 8 'a' = List.replicate 8 'a' ∧ [wsLevel] = [wsLevel] ∧
      (⟨4, 0, 3⟩ : Config) = ⟨4, 0, 3⟩ ∧
      segment [wsLevel] ⟨4, 0, 3⟩ (List.replicate 8 'a') =
        segment [wsLevel] ⟨4, 0, 3⟩ (List.replicate 8 'a') :=
  ⟨rfl, rfl, rfl,
    segmentation_deterministic _ _ [wsLevel] [wsLevel] ⟨4, 0, 3⟩ ⟨4, 0, 3⟩ rfl rfl rfl⟩

/-- Claim C9: segmenting the empty string with any level table and any
configuration returns an empty chunk stream. -/
theorem empty_input_empty_stream (table : List RuleLevel) (cfg : Config) :
    segment table cfg [] = [] := by
  unfold segment
  rw [splitLevels_nil, mergeGo]
  rw [if_neg (by simp)]
  simp [mergeGo, materialize]

theorem extractGo_map_text (l : List (List Char)) :
    ∀ i : Nat, (extractGo i l).map LangChunkMetadata.chunk_text = l := by
  induction l with
  | nil => intro i; rfl
  | cons c rest ih =>
    intro i
    simp [extractGo, mkLangMetadata, ih (i + 1)]

theorem extractGo_map_index (l : List (List Char)) :
    ∀ i : Nat, (extractGo i l).map LangChunkMetadata.chunk_index =
      List.range' i l.length := by
  induction l with
  | nil => intro i; rfl
  | cons c rest ih =>
    intro i
    simp [extractGo, mkLangMetadata, ih (i + 1), List.range']

/-- Claim C8: the metadata extractor returns a list parallel to its input —
same length, the record at position `i` carries `chunk_index = i`, and
each record's `chunk_text` is the corresponding chunk's text unchanged. -/
theorem metadata_extractor_parallel (chunks : List (List Char)) :
    (extract_ansible_metadata_from_chunks chunks).length = chunks.length
    ∧ (extract_ansible_metadata_from_chunks chunks).map
        LangChunkMetadata.chunk_text = chunks
    ∧ (extract_ansible_metadata_from_chunks chunks).map
        LangChunkMetadata.chunk_index = List.range chunks.length := by
  refine ⟨?_, extractGo_map_text chunks 0, ?_⟩
  · have h := extractGo_map_text chunks 0
    calc (extract_ansible_metadata_from_chunks chunks).length
        = ((extract_ansible_metadata_from_chunks chunks).map
            LangChunkMetadata.chunk_text).length := (List.length_map _ _).symm
      _ = chunks.length := by
          unfold extract_ansible_metadata_from_chunks
          rw [h]
  · rw [List.range_eq_range']
    exact extractGo_map_index chunks 0

/-- Claim C10: in `chunking_lang`'s extractor, every emitted record
satisfies the status/error invariant: `has_error` iff `error_type` is set
iff the status is FAILED, UNREACHABLE or RETRYING; the status is assigned
by first-match priority in the source's cascade order (FAILED! before
UNREACHABLE! before FAILED - RETRYING before changed: before ok: before
skipping:, case-insensitively); and the retry count is nonzero only when
the status is RETRYING. -/
theorem metadata_status_classification (i : Nat) (chunk : List Char) :
    langStatusInvariant (mkLangMetadata i chunk) := by
  unfold langStatusInvariant mkLangMetadata langStatusFields
  by_cases h1 : containsCI chunk "FAILED!" <;>
    by_cases h2 : containsCI chunk "UNREACHABLE!" <;>
    by_cases h3 : containsCI chunk "FAILED - RETRYING" <;>
    by_cases h4 : containsCI chunk "changed:" <;>
    by_cases h5 : containsCI chunk "ok:" <;>
    by_cases h6 : containsCI chunk "skipping:" <;>
    simp [h1, h2, h3, h4, h5, h6]

/-- Witness for C10 at a concrete chunk. -/
theorem metadata_status_classification_witness :
    langStatusInvariant (mkLangMetadata 0 ("fatal: [h1]: FAILED!".toList)) :=
  metadata_status_classification 0 ("fatal: [h1]: FAILED!".toList)

end AnsibleChunking
